import Mathlib

/-!
Verification of the thumbnail-cache and background-prefetch core of
kubux-wallpaper-generator.

Python values are embedded shallowly:
  * Python `str` becomes `List Char`;
  * PIL images are tracked by their pixel dimensions;
  * the `OrderedDict` memory cache `PIL_CACHE` becomes an association list
    whose order is insertion order (head = least recently used);
  * functions that may raise return `Option`/`Except`;
  * the filesystem and PIL are an explicit environment record.
-/

namespace Wallpaper

/-- Python strings, embedded as lists of characters. -/
abbrev PyStr := List Char

/-- A decoded PIL image, tracked by its pixel dimensions. -/
structure Img where
  width : Nat
  height : Nat
deriving DecidableEq

/-- The character for a decimal digit, as produced by Python `str` of a number. -/
def digitChar (d : Nat) : Char := Char.ofNat (48 + d)

/-- Worker for `natDigits`; the first argument is fuel bounding the number
of digits, so the recursion is structural and kernel-reducible. -/
def natDigitsAux : Nat → Nat → List Char
  | 0, _ => []
  | fuel + 1, n =>
    if n < 10 then [digitChar n]
    else natDigitsAux fuel (n / 10) ++ [digitChar (n % 10)]

/-- Decimal digit list of a natural number, exactly the characters of Python `str(n)`. -/
def natDigits (n : Nat) : List Char := natDigitsAux (n + 1) n

/-- Numeric value of a digit character. -/
def digitVal (c : Char) : Nat := c.toNat - 48

/-- Value of a digit string read back as a number. -/
def valOfDigits (l : List Char) : Nat := l.foldl (fun a c => 10 * a + digitVal c) 0

/-- The characters of Python `str(w)` for an integer `w`. -/
def intStr (w : Int) : List Char :=
  if w < 0 then '-' :: natDigits (-w).toNat else natDigits w.toNat

/-- The string `f"{img_path}_{width}_{mtime}"` that `uniq_file_id` feeds to
`hashlib.sha256`; mtime rendered as its decimal digits. -/
def keyString (imgPath : PyStr) (width : Int) (mtime : Nat) : PyStr :=
  imgPath ++ '_' :: (intStr width ++ '_' :: natDigits mtime)

/-- Result of `os.path.getmtime`: success, `FileNotFoundError`, or another
exception (which `uniq_file_id` maps to the default mtime 0). -/
inductive MtimeResult where
  | found (t : Nat)
  | notFound
  | err
deriving DecidableEq

/-- The filesystem and PIL, as seen by the cache code.  `openImage` is
`Image.open` on an original file (`none` = raises), `diskExists`/`diskLoad`
model the on-disk thumbnail cache, `mkdirOk`/`saveOk` tell whether
`os.makedirs` and `PIL.Image.save` succeed, and `relevantFiles` is
`list_relevant_files` for the background worker. -/
structure Env where
  getmtime : PyStr → MtimeResult
  openImage : PyStr → Option Img
  diskExists : PyStr → Bool
  diskLoad : PyStr → Option Img
  mkdirOk : PyStr → Bool
  saveOk : PyStr → Bool
  relevantFiles : PyStr → List PyStr

/-- `uniq_file_id(img_path, width)`: sha256 of `f"{img_path}_{width}_{mtime}"`.
Returns `None` when the file is missing; falls back to mtime 0 on other
mtime errors.  The sha256 hex digest is abstracted as the function `digest`. -/
def uniq_file_id (digest : PyStr → PyStr) (env : Env) (imgPath : PyStr) (width : Int) :
    Option PyStr :=
  match env.getmtime imgPath with
  | .notFound => none
  | .err => some (digest (keyString imgPath width 0))
  | .found t => some (digest (keyString imgPath width t))

/-- A key of `PIL_CACHE`: Python allows the `None` returned by a failed
`uniq_file_id` to be used as a dict key. -/
abbrev CKey := Option PyStr

/-- The global `PIL_CACHE` OrderedDict: an association list in insertion
order, head = least recently used, end = most recently used. -/
abbrev Cache := List (CKey × Img)

/-- Dict lookup (`k in d` / `d[k]`). -/
def lookupOD (k : CKey) : Cache → Option Img
  | [] => none
  | (k', v) :: rest => if k = k' then some v else lookupOD k rest

/-- Remove a key from an association list (first occurrence; keys are unique). -/
def eraseOD (k : CKey) : Cache → Cache
  | [] => []
  | (k', v) :: rest => if k = k' then rest else (k', v) :: eraseOD k rest

/-- `OrderedDict.move_to_end(k)`: move the entry to most-recently-used position. -/
def moveToEnd (k : CKey) (c : Cache) : Cache :=
  match lookupOD k c with
  | none => c
  | some v => eraseOD k c ++ [(k, v)]

/-- Dict assignment `d[k] = v`: update in place when present, else append at
the most-recently-used end. -/
def insertOD (k : CKey) (v : Img) : Cache → Cache
  | [] => [(k, v)]
  | (k', v') :: rest => if k = k' then (k', v) :: rest else (k', v') :: insertOD k v rest

/-- `get_full_size_image(img_path)`: memory-cache hit moves the entry to
most-recently-used; on miss, open the file, insert, and if the cache now
exceeds 2000 entries pop the least-recently-used one and assert the length
is back to 2000 (a failing assert raises AssertionError, which the
surrounding `except` swallows, returning `None`).  Returns the image (or
`None`) together with the updated cache. -/
def get_full_size_image (digest : PyStr → PyStr) (env : Env) (cache : Cache)
    (imgPath : PyStr) : Option Img × Cache :=
  let ck := uniq_file_id digest env imgPath (-1)
  match lookupOD ck cache with
  | some img => (some img, moveToEnd ck cache)
  | none =>
    match env.openImage imgPath with
    | none => (none, cache)
    | some img =>
      let c1 := insertOD ck img cache
      if 2000 < c1.length then
        if c1.tail.length = 2000 then (some img, c1.tail)
        else (none, c1.tail)
      else (some img, c1)

/-- `resize_image(image, target_width, target_height)`: keep aspect ratio,
truncating the scaled dimension and clamping both results to at least 1.
Returns `none` for the `ZeroDivisionError` raised when the image height is 0
past the non-positive-target guard. -/
def resize_image (img : Img) (targetWidth targetHeight : Int) : Option Img :=
  if targetWidth ≤ 0 ∨ targetHeight ≤ 0 then some img
  else if img.height = 0 then none
  else if ((targetWidth : ℚ) / (targetHeight : ℚ)) < ((img.width : ℚ) / (img.height : ℚ)) then
    some ⟨(max 1 targetWidth).toNat,
      (max 1 ⌊(targetWidth : ℚ) / ((img.width : ℚ) / (img.height : ℚ))⌋).toNat⟩
  else
    some ⟨(max 1 ⌊(targetHeight : ℚ) * ((img.width : ℚ) / (img.height : ℚ))⌋).toNat,
      (max 1 targetHeight).toNat⟩

/-- `THUMBNAIL_CACHE_ROOT`, abstracted to an opaque path constant. -/
def cacheRoot : PyStr := ['t', 'h', 'u', 'm', 'b', 'n', 'a', 'i', 'l', 's']

/-- Python string interpolation of a value that may be `None`. -/
def pyOptStr : Option PyStr → PyStr
  | some s => s
  | none => ['N', 'o', 'n', 'e']

/-- `os.path.join(THUMBNAIL_CACHE_ROOT, str(thumbnail_max_size))`. -/
def thumbSubdir (size : Int) : PyStr := cacheRoot ++ '/' :: intStr size

/-- `os.path.join(thumbnail_cache_subdir, f"{cache_key}.png")`. -/
def thumbPath (size : Int) (ck : CKey) : PyStr :=
  thumbSubdir size ++ '/' :: (pyOptStr ck ++ ['.', 'p', 'n', 'g'])

/-- Outcome of `get_or_make_thumbnail`: the returned image (or `None`), the
memory cache afterwards, and the list of disk-cache files written. -/
structure ThumbResult where
  result : Option Img
  cache : Cache
  diskWrites : List PyStr
deriving DecidableEq

/-- The cold path of `get_or_make_thumbnail`: build the thumbnail from the
full-size image, best-effort save to disk, insert into the memory cache
(without any eviction).  All exceptions in this block are caught, returning
whatever `pil_image_thumbnail` holds at that point. -/
def makeThumbnail (digest : PyStr → PyStr) (env : Env) (cache : Cache) (imgPath : PyStr)
    (size : Int) (ck : CKey) (cpath : PyStr) : ThumbResult :=
  match get_full_size_image digest env cache imgPath with
  | (none, c1) => ⟨none, c1, []⟩
  | (some img, c1) =>
    match resize_image img size size with
    | none => ⟨none, c1, []⟩
    | some thumb =>
      if env.saveOk cpath then ⟨some thumb, insertOD ck thumb c1, [cpath]⟩
      else ⟨some thumb, c1, []⟩

/-- `get_or_make_thumbnail(img_path, thumbnail_max_size)`: memory-cache hit
returns immediately (without `move_to_end`); otherwise `os.makedirs` (whose
failure propagates, `.error ()`), then the on-disk cache (a corrupt disk file
falls through to regeneration), then the cold path. -/
def get_or_make_thumbnail (digest : PyStr → PyStr) (env : Env) (cache : Cache)
    (imgPath : PyStr) (size : Int) : Except Unit ThumbResult :=
  let ck := uniq_file_id digest env imgPath size
  match lookupOD ck cache with
  | some img => .ok ⟨some img, cache, []⟩
  | none =>
    if env.mkdirOk (thumbSubdir size) then
      let cpath := thumbPath size ck
      if env.diskExists cpath then
        match env.diskLoad cpath with
        | some img => .ok ⟨some img, insertOD ck img cache, []⟩
        | none => .ok (makeThumbnail digest env cache imgPath size ck cpath)
      else .ok (makeThumbnail digest env cache imgPath size ck cpath)
    else .error ()

/-- Control position of the `BackgroundWorker.background` thread.
`startScan` is the top of the outer `while self.keep_running` loop;
`scanning` is inside the `for path_name in to_do_list` loop, carrying the
captured `old_size`, `old_directory` and the remaining `to_do_list`;
`idle` is the 2-second polling loop after the list is exhausted;
`stopped` is a `return`; `crashed` is an uncaught exception. -/
inductive Phase where
  | startScan
  | scanning (oldSize : Int) (oldDir : PyStr) (pending : List PyStr)
  | idle (oldSize : Int) (oldDir : PyStr)
  | stopped
  | crashed
deriving DecidableEq

/-- The worker thread together with the shared state it reads and writes:
`keepRunning` and `gate` model `self.keep_running` and the `threading.Event`
`self.block` (`gate = false` means cleared, so `barrier()` blocks);
`currentSize`/`currentDir` are written by the UI thread; `cache` is the
global `PIL_CACHE`. -/
structure SysState where
  keepRunning : Bool
  gate : Bool
  currentSize : Int
  currentDir : PyStr
  phase : Phase
  cache : Cache

/-- One observable step of `BackgroundWorker.background`, returning the new
state and the paths pushed onto `path_name_queue` during the step.  In the
`scanning` phase the thread first checks `keep_running`, then blocks on
`barrier()`, then compares the captured size/directory with the current
ones: on a match it warms the cache via `get_or_make_thumbnail` and pushes
the path unconditionally; on a mismatch it breaks out to the idle loop. -/
def workerStep (digest : PyStr → PyStr) (env : Env) (s : SysState) :
    SysState × List PyStr :=
  match s.phase with
  | .startScan =>
    if s.keepRunning then
      ({ s with phase :=
          Phase.scanning s.currentSize s.currentDir (env.relevantFiles s.currentDir) }, [])
    else ({ s with phase := .stopped }, [])
  | .scanning oldS oldD [] => ({ s with phase := .idle oldS oldD }, [])
  | .scanning oldS oldD (p :: rest) =>
    if s.keepRunning then
      if s.gate then
        if oldS = s.currentSize ∧ oldD = s.currentDir then
          match get_or_make_thumbnail digest env s.cache p oldS with
          | .ok r => ({ s with cache := r.cache, phase := .scanning oldS oldD rest }, [p])
          | .error _ => ({ s with phase := .crashed }, [])
        else ({ s with phase := .idle oldS oldD }, [])
      else (s, [])
    else ({ s with phase := .stopped }, [])
  | .idle oldS oldD =>
    if s.keepRunning ∧ oldS = s.currentSize ∧ oldD = s.currentDir then (s, [])
    else ({ s with phase := .startScan }, [])
  | .stopped => (s, [])
  | .crashed => (s, [])

/-- Events interleaved with the worker: one worker step, the UI calling
`pause()`/`resume()`/`stop()`, or the UI assigning `current_dir` /
`current_size` directly (as `_on_directory_selected` and the size-slider
callback do). -/
inductive Action where
  | tick
  | pause
  | resume
  | setDir (d : PyStr)
  | setSize (n : Int)
  | stop
deriving DecidableEq

/-- Apply one action to the system. -/
def applyAction (digest : PyStr → PyStr) (env : Env) (s : SysState) :
    Action → SysState × List PyStr
  | .tick => workerStep digest env s
  | .pause => ({ s with gate := false }, [])
  | .resume => ({ s with gate := true }, [])
  | .setDir d => ({ s with currentDir := d }, [])
  | .setSize n => ({ s with currentSize := n }, [])
  | .stop => ({ s with keepRunning := false, gate := true }, [])

/-- Run a list of actions, concatenating everything pushed onto the queue. -/
def runActions (digest : PyStr → PyStr) (env : Env) :
    SysState → List Action → SysState × List PyStr
  | s, [] => (s, [])
  | s, a :: rest =>
    let p := applyAction digest env s a
    let q := runActions digest env p.1 rest
    (q.1, p.2 ++ q.2)

/-- The state right after `BackgroundWorker()` construction followed by
`run(dir, size)`: `keep_running = True`, the `threading.Event` starts
cleared (gate closed), and the thread is at the top of its loop. -/
def initWorker (dir : PyStr) (size : Int) (cache : Cache) : SysState :=
  { keepRunning := true, gate := false, currentSize := size, currentDir := dir,
    phase := .startScan, cache := cache }

/-- A concrete environment where every file has mtime 5. -/
def envMtime5 : Env where
  getmtime := fun _ => .found 5
  openImage := fun _ => some ⟨1, 1⟩
  diskExists := fun _ => false
  diskLoad := fun _ => none
  mkdirOk := fun _ => true
  saveOk := fun _ => true
  relevantFiles := fun _ => []

/-- A concrete environment whose only file is missing. -/
def envMissing : Env where
  getmtime := fun _ => .notFound
  openImage := fun _ => none
  diskExists := fun _ => false
  diskLoad := fun _ => none
  mkdirOk := fun _ => true
  saveOk := fun _ => true
  relevantFiles := fun _ => []

/-- A concrete environment where files open fine but thumbnail saving fails. -/
def envSaveFail : Env where
  getmtime := fun _ => .found 0
  openImage := fun _ => some ⟨2, 1⟩
  diskExists := fun _ => false
  diskLoad := fun _ => none
  mkdirOk := fun _ => true
  saveOk := fun _ => false
  relevantFiles := fun _ => []

/-- A concrete environment where every thumbnail is present in the on-disk
cache. -/
def envDiskHit : Env where
  getmtime := fun _ => .found 0
  openImage := fun _ => some ⟨1, 1⟩
  diskExists := fun _ => true
  diskLoad := fun _ => some ⟨1, 1⟩
  mkdirOk := fun _ => true
  saveOk := fun _ => true
  relevantFiles := fun _ => []

/-- The thumbnail cache key of file "a" at size 100, mtime 0. -/
def kA : PyStr := keyString ['a'] 100 0

/-- The thumbnail cache key of file "b" at size 100, mtime 0. -/
def kB : PyStr := keyString ['b'] 100 0

/-- A two-entry memory cache whose least-recently-used entry is the key of
file "a". -/
def cacheAB : Cache := [(some kA, ⟨1, 1⟩), (some kB, ⟨2, 2⟩)]

/-- One request against the shared `PIL_CACHE`: a thumbnail request
(`get_or_make_thumbnail`) or a full-size request (`get_full_size_image`). -/
inductive CacheOp where
  | thumb (imgPath : PyStr) (size : Int)
  | full (imgPath : PyStr)

/-- The memory cache after one request.  An exception escaping
`get_or_make_thumbnail` leaves the cache as it was (nothing is mutated before
`os.makedirs`). -/
def applyOp (digest : PyStr → PyStr) (env : Env) (cache : Cache) : CacheOp → Cache
  | .thumb p s =>
    match get_or_make_thumbnail digest env cache p s with
    | .ok r => r.cache
    | .error _ => cache
  | .full p => (get_full_size_image digest env cache p).2

/-- The memory cache after a sequence of requests. -/
def runOps (digest : PyStr → PyStr) (env : Env) : Cache → List CacheOp → Cache
  | c, [] => c
  | c, op :: rest => runOps digest env (applyOp digest env c op) rest

/-- 2001 thumbnail requests for distinct files, all served from disk. -/
def overfillPaths : List PyStr := (List.range 2001).map natDigits

/-- A paused worker mid-scan: gate closed, one file left in the pass. -/
def pausedScan : SysState :=
  { keepRunning := true, gate := false, currentSize := 100, currentDir := ['d'],
    phase := .scanning 100 ['d'] [['a']], cache := [] }

/-- The same worker after `resume()`. -/
def resumedScan : SysState := { pausedScan with gate := true }

/-- A scanning worker whose target directory has changed under it. -/
def staleScan : SysState :=
  { keepRunning := true, gate := true, currentSize := 100, currentDir := ['e'],
    phase := .scanning 100 ['d'] [['a']], cache := [] }

/-- A concrete environment whose files cannot be opened (missing or corrupt
originals, nothing in the on-disk cache). -/
def envOpenFail : Env where
  getmtime := fun _ => .found 0
  openImage := fun _ => none
  diskExists := fun _ => false
  diskLoad := fun _ => none
  mkdirOk := fun _ => true
  saveOk := fun _ => true
  relevantFiles := fun _ => [['a']]

/-- A running worker about to process file "a" with a matching target. -/
def activeScan : SysState :=
  { keepRunning := true, gate := true, currentSize := 100, currentDir := ['d'],
    phase := .scanning 100 ['d'] [['a']], cache := [] }

/-- The worker can do no cache-warming work: the gate is closed or the
thread has been told to stop. -/
def noWork (s : SysState) : Prop := s.gate = false ∨ s.keepRunning = false

theorem natDigitsAux_fuel : ∀ (a b n : Nat), n < a → n < b →
    natDigitsAux a n = natDigitsAux b n := by
  intro a
  induction a using Nat.strong_induction_on with
  | _ a ih =>
    intro b n h1 h2
    cases a with
    | zero => omega
    | succ g =>
      cases b with
      | zero => omega
      | succ k =>
        simp only [natDigitsAux]
        split
        · rfl
        · rename_i hn
          rw [ih g (by omega) k (n / 10) (by omega) (by omega)]

/-- The defining recurrence of `natDigits`. -/
theorem natDigits_eq (n : Nat) : natDigits n =
    if n < 10 then [digitChar n] else natDigits (n / 10) ++ [digitChar (n % 10)] := by
  show natDigitsAux (n + 1) n = _
  simp only [natDigitsAux]
  split
  · rfl
  · rename_i hn
    rw [natDigitsAux_fuel n (n / 10 + 1) (n / 10) (by omega) (by omega)]
    rfl

theorem digitVal_digitChar {d : Nat} (h : d < 10) : digitVal (digitChar d) = d := by
  interval_cases d <;> decide

theorem digitChar_toNat {d : Nat} (h : d < 10) : (digitChar d).toNat = 48 + d := by
  interval_cases d <;> decide

theorem natDigits_chars {n : Nat} : ∀ c ∈ natDigits n, 48 ≤ c.toNat ∧ c.toNat ≤ 57 := by
  induction n using Nat.strong_induction_on with
  | _ n ih =>
    rw [natDigits_eq]
    split
    · intro c hc
      simp only [List.mem_singleton] at hc
      subst hc
      rename_i h
      rw [digitChar_toNat h]
      omega
    · intro c hc
      rcases List.mem_append.mp hc with h1 | h2
      · exact ih (n / 10) (Nat.div_lt_self (by omega) (by omega)) c h1
      · simp only [List.mem_singleton] at h2
        subst h2
        rw [digitChar_toNat (Nat.mod_lt _ (by omega))]
        omega

theorem valOfDigits_append_singleton (xs : List Char) (c : Char) :
    valOfDigits (xs ++ [c]) = 10 * valOfDigits xs + digitVal c := by
  unfold valOfDigits
  rw [List.foldl_append]
  rfl

theorem valOfDigits_natDigits (n : Nat) : valOfDigits (natDigits n) = n := by
  induction n using Nat.strong_induction_on with
  | _ n ih =>
    rw [natDigits_eq]
    split
    · rename_i h
      show valOfDigits [digitChar n] = n
      unfold valOfDigits
      simp [digitVal_digitChar h]
    · rename_i h
      rw [valOfDigits_append_singleton, ih (n / 10) (Nat.div_lt_self (by omega) (by omega)),
        digitVal_digitChar (Nat.mod_lt _ (by omega))]
      omega

theorem natDigits_injective : Function.Injective natDigits := by
  intro a b h
  have := congrArg valOfDigits h
  rwa [valOfDigits_natDigits, valOfDigits_natDigits] at this

theorem underscore_not_mem_natDigits (n : Nat) : '_' ∉ natDigits n := by
  intro h
  have := natDigits_chars '_' h
  simp at this

theorem hyphen_not_mem_natDigits (n : Nat) : '-' ∉ natDigits n := by
  intro h
  have := natDigits_chars '-' h
  simp at this

theorem underscore_not_mem_intStr (w : Int) : '_' ∉ intStr w := by
  unfold intStr
  split
  · intro h
    rcases List.mem_cons.mp h with h | h
    · exact absurd h (by decide)
    · exact underscore_not_mem_natDigits _ h
  · exact underscore_not_mem_natDigits _

theorem intStr_injective : Function.Injective intStr := by
  intro a b h
  unfold intStr at h
  split at h <;> split at h
  · rename_i ha hb
    have h2 : natDigits (-a).toNat = natDigits (-b).toNat := by injection h
    have := natDigits_injective h2
    omega
  · rename_i ha hb
    exact absurd (h ▸ List.mem_cons_self '-' _) (hyphen_not_mem_natDigits _)
  · rename_i ha hb
    exact absurd (h ▸ List.mem_cons_self '-' _) (hyphen_not_mem_natDigits _)
  · rename_i ha hb
    have := natDigits_injective h
    omega

/-- Splitting a list at its first occurrence of a separator is unambiguous. -/
theorem sep_split_first {sep : Char} :
    ∀ (u : List Char) (v : PyStr) (u' : List Char) (v' : PyStr), sep ∉ u → sep ∉ u' →
      u ++ sep :: v = u' ++ sep :: v' → u = u' ∧ v = v' := by
  intro u
  induction u with
  | nil =>
    intro v u' v' _ hu' h
    cases u' with
    | nil =>
      simp only [List.nil_append] at h
      exact ⟨rfl, by injection h⟩
    | cons a u'' =>
      simp only [List.nil_append, List.cons_append] at h
      have ha : a = sep := by injection h with h1 _; exact h1.symm
      exact absurd (ha ▸ List.mem_cons_self a u'') hu'
  | cons c u₂ ih =>
    intro v u' v' hu hu' h
    cases u' with
    | nil =>
      simp only [List.cons_append, List.nil_append] at h
      have hc : c = sep := by injection h
      exact absurd (hc ▸ List.mem_cons_self c u₂) hu
    | cons a u'' =>
      simp only [List.cons_append] at h
      have h1 : c = a := by injection h
      have h2 : u₂ ++ sep :: v = u'' ++ sep :: v' := by injection h
      have := ih v u'' v' (fun hm => hu (List.mem_cons_of_mem _ hm))
        (fun hm => hu' (List.mem_cons_of_mem _ hm)) h2
      exact ⟨by rw [h1, this.1], this.2⟩

/-- Splitting a list at its last occurrence of a separator is unambiguous. -/
theorem sep_split_last {sep : Char} (u : List Char) (v : PyStr) (u' : List Char) (v' : PyStr)
    (hv : sep ∉ v) (hv' : sep ∉ v') (h : u ++ sep :: v = u' ++ sep :: v') :
    u = u' ∧ v = v' := by
  have h' := congrArg List.reverse h
  have e : ∀ (x : List Char) (y : PyStr),
      (x ++ sep :: y).reverse = y.reverse ++ sep :: x.reverse := by
    intro x y
    simp
  rw [e, e] at h'
  have := sep_split_first v.reverse u.reverse v'.reverse u'.reverse
    (fun hm => hv (List.mem_reverse.mp hm)) (fun hm => hv' (List.mem_reverse.mp hm)) h'
  exact ⟨List.reverse_injective this.2, List.reverse_injective this.1⟩

theorem keyString_injective_parts {p p' : PyStr} {w w' : Int} {t t' : Nat}
    (h : keyString p w t = keyString p' w' t') : p = p' ∧ w = w' ∧ t = t' := by
  unfold keyString at h
  have hre : ∀ (q : PyStr) (x : Int) (y : Nat),
      q ++ '_' :: (intStr x ++ '_' :: natDigits y) =
        (q ++ '_' :: intStr x) ++ '_' :: natDigits y := by
    intro q x y
    simp
  rw [hre, hre] at h
  have h1 := sep_split_last _ _ _ _ (underscore_not_mem_natDigits t)
    (underscore_not_mem_natDigits t') h
  have h2 := sep_split_last _ _ _ _ (underscore_not_mem_intStr w)
    (underscore_not_mem_intStr w') h1.1
  exact ⟨h2.1, intStr_injective h2.2, natDigits_injective h1.2⟩

/-- C6: cache-key derivation is a pure function of (path, width, mtime): with
the sha256 digest abstracted as an injective function, `uniq_file_id` is
determined by the three inputs, and two derived keys agree exactly when all
three inputs agree — in particular, for a fixed path and size the key is
unchanged iff the mtime is unchanged. -/
theorem uniq_file_id_pure_and_injective (digest : PyStr → PyStr)
    (hinj : Function.Injective digest) :
    (∀ env p w t, env.getmtime p = .found t →
        uniq_file_id digest env p w = some (digest (keyString p w t))) ∧
    (∀ p w t p' w' t',
        digest (keyString p w t) = digest (keyString p' w' t') ↔
          p = p' ∧ w = w' ∧ t = t') := by
  constructor
  · intro env p w t hmt
    unfold uniq_file_id
    rw [hmt]
  · intro p w t p' w' t'
    constructor
    · intro hk
      exact keyString_injective_parts (hinj hk)
    · rintro ⟨rfl, rfl, rfl⟩
      rfl

/-- Witness for C6 at digest = identity, path `"a"`, width 100, mtimes 5 and 6. -/
theorem uniq_file_id_pure_and_injective_witness :
    uniq_file_id (fun s => s) envMtime5 ['a'] 100 = some (keyString ['a'] 100 5) ∧
    keyString ['a'] 100 5 ≠ keyString ['a'] 100 6 := by
  have h := uniq_file_id_pure_and_injective (fun s => s) (fun a b hab => hab)
  refine ⟨h.1 envMtime5 ['a'] 100 5 rfl, fun hk => ?_⟩
  have h2 := (h.2 ['a'] 100 5 ['a'] 100 6).mp hk
  exact absurd h2.2.2 (by decide)

/-- C7: resizing a w×h image (both positive) to a square target of positive
size yields dimensions whose larger side equals the target size and whose
smaller side is at least 1. -/
theorem resize_thumbnail_dims (w h : Nat) (size : Int)
    (hw : 0 < w) (hh : 0 < h) (hs : 0 < size) :
    ∃ w' h', resize_image ⟨w, h⟩ size size = some ⟨w', h'⟩ ∧
      max w' h' = size.toNat ∧ 1 ≤ min w' h' := by
  have hs1 : ¬(size ≤ 0 ∨ size ≤ 0) := by omega
  have hszQ : ((size : ℚ)) ≠ 0 := by
    exact_mod_cast (by omega : size ≠ 0)
  have hsq : ((size : ℚ) / (size : ℚ)) = 1 := div_self hszQ
  have hhQ : (0 : ℚ) < (h : ℚ) := by exact_mod_cast hh
  have hwQ : (0 : ℚ) < (w : ℚ) := by exact_mod_cast hw
  have hsQ : (0 : ℚ) < (size : ℚ) := by exact_mod_cast hs
  by_cases hwh : h < w
  · have hcond : ((size : ℚ) / (size : ℚ)) < ((w : ℚ) / (h : ℚ)) := by
      rw [hsq, one_lt_div hhQ]
      exact_mod_cast hwh
    have hredir : (size : ℚ) / ((w : ℚ) / (h : ℚ)) = (size : ℚ) * (h : ℚ) / (w : ℚ) := by
      rw [div_div_eq_mul_div]
    have hqle : (size : ℚ) * (h : ℚ) / (w : ℚ) ≤ (size : ℚ) := by
      rw [div_le_iff₀ hwQ]
      have : (h : ℚ) ≤ (w : ℚ) := by exact_mod_cast hwh.le
      nlinarith
    have hq0 : (0 : ℚ) ≤ (size : ℚ) * (h : ℚ) / (w : ℚ) := by positivity
    have hfl_le : ⌊(size : ℚ) * (h : ℚ) / (w : ℚ)⌋ ≤ size := by
      calc ⌊(size : ℚ) * (h : ℚ) / (w : ℚ)⌋ ≤ ⌊((size : Int) : ℚ)⌋ := Int.floor_le_floor hqle
        _ = size := Int.floor_intCast size
    have hfl_0 : 0 ≤ ⌊(size : ℚ) * (h : ℚ) / (w : ℚ)⌋ := Int.floor_nonneg.mpr hq0
    unfold resize_image
    rw [if_neg hs1]
    rw [if_neg (show ¬(Img.height ⟨w, h⟩ = 0) from by simp; omega)]
    rw [if_pos (show ((size : ℚ) / (size : ℚ)) < ((Img.width ⟨w, h⟩ : ℚ) / (Img.height ⟨w, h⟩ : ℚ)) from hcond)]
    refine ⟨_, _, rfl, ?_, ?_⟩
    · show max (max 1 size).toNat (max 1 ⌊(size : ℚ) / ((Img.width ⟨w, h⟩ : ℚ) / (Img.height ⟨w, h⟩ : ℚ))⌋).toNat = size.toNat
      rw [show ((Img.width ⟨w, h⟩ : ℚ) / (Img.height ⟨w, h⟩ : ℚ)) = ((w : ℚ) / (h : ℚ)) from rfl, hredir]
      omega
    · show 1 ≤ min (max 1 size).toNat (max 1 ⌊(size : ℚ) / ((Img.width ⟨w, h⟩ : ℚ) / (Img.height ⟨w, h⟩ : ℚ))⌋).toNat
      rw [show ((Img.width ⟨w, h⟩ : ℚ) / (Img.height ⟨w, h⟩ : ℚ)) = ((w : ℚ) / (h : ℚ)) from rfl, hredir]
      omega
  · have hcond : ¬(((size : ℚ) / (size : ℚ)) < ((w : ℚ) / (h : ℚ))) := by
      rw [hsq, not_lt, div_le_one hhQ]
      exact_mod_cast not_lt.mp hwh
    have hredir : (size : ℚ) * ((w : ℚ) / (h : ℚ)) = (size : ℚ) * (w : ℚ) / (h : ℚ) := by
      rw [mul_div_assoc]
    have hqle : (size : ℚ) * (w : ℚ) / (h : ℚ) ≤ (size : ℚ) := by
      rw [div_le_iff₀ hhQ]
      have : (w : ℚ) ≤ (h : ℚ) := by exact_mod_cast not_lt.mp hwh
      nlinarith
    have hq0 : (0 : ℚ) ≤ (size : ℚ) * (w : ℚ) / (h : ℚ) := by positivity
    have hfl_le : ⌊(size : ℚ) * (w : ℚ) / (h : ℚ)⌋ ≤ size := by
      calc ⌊(size : ℚ) * (w : ℚ) / (h : ℚ)⌋ ≤ ⌊((size : Int) : ℚ)⌋ := Int.floor_le_floor hqle
        _ = size := Int.floor_intCast size
    have hfl_0 : 0 ≤ ⌊(size : ℚ) * (w : ℚ) / (h : ℚ)⌋ := Int.floor_nonneg.mpr hq0
    unfold resize_image
    rw [if_neg hs1]
    rw [if_neg (show ¬(Img.height ⟨w, h⟩ = 0) from by simp; omega)]
    rw [if_neg (show ¬(((size : ℚ) / (size : ℚ)) < ((Img.width ⟨w, h⟩ : ℚ) / (Img.height ⟨w, h⟩ : ℚ))) from hcond)]
    refine ⟨_, _, rfl, ?_, ?_⟩
    · show max (max 1 ⌊(size : ℚ) * ((Img.width ⟨w, h⟩ : ℚ) / (Img.height ⟨w, h⟩ : ℚ))⌋).toNat (max 1 size).toNat = size.toNat
      rw [show ((Img.width ⟨w, h⟩ : ℚ) / (Img.height ⟨w, h⟩ : ℚ)) = ((w : ℚ) / (h : ℚ)) from rfl, hredir]
      omega
    · show 1 ≤ min (max 1 ⌊(size : ℚ) * ((Img.width ⟨w, h⟩ : ℚ) / (Img.height ⟨w, h⟩ : ℚ))⌋).toNat (max 1 size).toNat
      rw [show ((Img.width ⟨w, h⟩ : ℚ) / (Img.height ⟨w, h⟩ : ℚ)) = ((w : ℚ) / (h : ℚ)) from rfl, hredir]
      omega

/-- C8: if the source file is missing at key-derivation time (`getmtime`
raises `FileNotFoundError`), the whole thumbnail lookup fails — the caller
gets the failure result — and no entry is created in the memory cache nor
written to the on-disk cache. -/
theorem missing_file_lookup_fails (digest : PyStr → PyStr) (env : Env) (cache : Cache)
    (p : PyStr) (size : Int)
    (hmt : env.getmtime p = .notFound)
    (hmem : lookupOD none cache = none)
    (hmk : env.mkdirOk (thumbSubdir size) = true)
    (hde : env.diskExists (thumbPath size none) = false)
    (hopen : env.openImage p = none) :
    get_or_make_thumbnail digest env cache p size = .ok ⟨none, cache, []⟩ := by
  have hck : uniq_file_id digest env p size = none := by
    unfold uniq_file_id
    rw [hmt]
  have hckFull : uniq_file_id digest env p (-1) = none := by
    unfold uniq_file_id
    rw [hmt]
  unfold get_or_make_thumbnail
  rw [hck]
  simp only [hmem, hmk, hde, if_true, Bool.false_eq_true, if_false]
  unfold makeThumbnail get_full_size_image
  rw [hckFull]
  simp only [hmem, hopen]

/-- Witness for C8 on a concrete missing file and a nonempty cache. -/
theorem missing_file_lookup_fails_witness :
    get_or_make_thumbnail (fun s => s) envMissing [(some ['k'], ⟨3, 3⟩)] ['a'] 100 =
      .ok ⟨none, [(some ['k'], ⟨3, 3⟩)], []⟩ :=
  missing_file_lookup_fails (fun s => s) envMissing [(some ['k'], ⟨3, 3⟩)] ['a'] 100
    rfl (by decide) rfl rfl rfl

/-- C9: when the full-size image decodes and resizes successfully but saving
the thumbnail to the on-disk cache fails, the error is swallowed and the
resized thumbnail is still returned to the caller. -/
theorem save_failure_still_returns_thumbnail (digest : PyStr → PyStr) (env : Env)
    (cache : Cache) (p : PyStr) (size : Int) (k : PyStr) (fimg thumb : Img) (c1 : Cache)
    (hck : uniq_file_id digest env p size = some k)
    (hmem : lookupOD (some k) cache = none)
    (hmk : env.mkdirOk (thumbSubdir size) = true)
    (hde : env.diskExists (thumbPath size (some k)) = false)
    (hfull : get_full_size_image digest env cache p = (some fimg, c1))
    (hresize : resize_image fimg size size = some thumb)
    (hsave : env.saveOk (thumbPath size (some k)) = false) :
    get_or_make_thumbnail digest env cache p size = .ok ⟨some thumb, c1, []⟩ := by
  unfold get_or_make_thumbnail
  rw [hck]
  simp only [hmem, hmk, hde, if_true, Bool.false_eq_true, if_false]
  simp only [makeThumbnail, hfull, hresize, hsave, Bool.false_eq_true, if_false]

/-- Witness for C9: a 2×1 file at size 10 whose disk save fails still yields
the 10×5 thumbnail. -/
theorem save_failure_still_returns_thumbnail_witness :
    get_or_make_thumbnail (fun s => s) envSaveFail [] ['a'] 10 =
      .ok ⟨some ⟨10, 5⟩, [(some (keyString ['a'] (-1) 0), ⟨2, 1⟩)], []⟩ :=
  save_failure_still_returns_thumbnail (fun s => s) envSaveFail [] ['a'] 10
    (keyString ['a'] 10 0) ⟨2, 1⟩ ⟨10, 5⟩ [(some (keyString ['a'] (-1) 0), ⟨2, 1⟩)]
    rfl rfl rfl rfl rfl (by norm_num [resize_image]; omega) rfl

/-- Counterexample to C2: a thumbnail request that hits the memory cache
returns the entry without moving it to the most-recently-used position — the
cache order is returned unchanged, though `move_to_end` would have changed
it. -/
theorem thumbnail_hit_leaves_lru_unchanged :
    get_or_make_thumbnail (fun s => s) envDiskHit cacheAB ['a'] 100 =
      .ok ⟨some ⟨1, 1⟩, cacheAB, []⟩ ∧
    moveToEnd (some kA) cacheAB ≠ cacheAB :=
  ⟨rfl, by decide⟩

/-- C2 as amended: only full-size hits refresh the LRU position
(`get_full_size_image` calls `move_to_end` before returning); thumbnail hits
in `get_or_make_thumbnail` return the cached image with the cache order
untouched. -/
theorem lru_touch_on_hit_amended (digest : PyStr → PyStr) (env : Env) (cache : Cache)
    (p : PyStr) (size : Int) (imgF imgT : Img)
    (hfull : lookupOD (uniq_file_id digest env p (-1)) cache = some imgF)
    (hthumb : lookupOD (uniq_file_id digest env p size) cache = some imgT) :
    get_full_size_image digest env cache p =
      (some imgF, moveToEnd (uniq_file_id digest env p (-1)) cache) ∧
    get_or_make_thumbnail digest env cache p size = .ok ⟨some imgT, cache, []⟩ := by
  constructor
  · simp only [get_full_size_image, hfull]
  · simp only [get_or_make_thumbnail, hthumb]

/-- Witness for C2's amended claim on a concrete two-entry cache holding both
the full-size key and the thumbnail key of file "a". -/
theorem lru_touch_on_hit_amended_witness :
    get_full_size_image (fun s => s) envDiskHit
        [(some (keyString ['a'] (-1) 0), ⟨1, 1⟩), (some kA, ⟨2, 2⟩)] ['a'] =
      (some ⟨1, 1⟩, moveToEnd (uniq_file_id (fun s => s) envDiskHit ['a'] (-1))
        [(some (keyString ['a'] (-1) 0), ⟨1, 1⟩), (some kA, ⟨2, 2⟩)]) ∧
    get_or_make_thumbnail (fun s => s) envDiskHit
        [(some (keyString ['a'] (-1) 0), ⟨1, 1⟩), (some kA, ⟨2, 2⟩)] ['a'] 100 =
      .ok ⟨some ⟨2, 2⟩, [(some (keyString ['a'] (-1) 0), ⟨1, 1⟩), (some kA, ⟨2, 2⟩)], []⟩ :=
  lru_touch_on_hit_amended (fun s => s) envDiskHit
    [(some (keyString ['a'] (-1) 0), ⟨1, 1⟩), (some kA, ⟨2, 2⟩)] ['a'] 100 ⟨1, 1⟩ ⟨2, 2⟩
    (by decide) (by decide)

theorem lookupOD_insertOD_of_ne (k k' : CKey) (v : Img) (c : Cache) (h : k' ≠ k) :
    lookupOD k' (insertOD k v c) = lookupOD k' c := by
  induction c with
  | nil => simp [insertOD, lookupOD, h]
  | cons kv rest ih =>
    by_cases hk : k = kv.1
    · simp only [insertOD, lookupOD, if_pos hk]
      rw [show kv = (kv.1, kv.2) from rfl]
      simp only [lookupOD]
      rw [if_neg (hk ▸ h)]
      rw [if_neg (hk ▸ h)]
    · rw [show kv = (kv.1, kv.2) from rfl]
      simp only [insertOD, lookupOD, if_neg hk]
      by_cases hk' : k' = kv.1
      · simp [hk']
      · simp only [if_neg hk']
        exact ih

theorem length_insertOD_of_not_mem (k : CKey) (v : Img) (c : Cache)
    (h : lookupOD k c = none) : (insertOD k v c).length = c.length + 1 := by
  induction c with
  | nil => rfl
  | cons kv rest ih =>
    rw [show kv = (kv.1, kv.2) from rfl] at h ⊢
    simp only [lookupOD] at h
    by_cases hk : k = kv.1
    · rw [if_pos hk] at h
      exact absurd h (by simp)
    · rw [if_neg hk] at h
      simp only [insertOD, if_neg hk, List.length_cons, ih h]

/-- In `envDiskHit`, a thumbnail request for a fresh key is served from the
on-disk cache and inserted into the memory cache without any eviction. -/
theorem applyOp_thumb_diskHit (p : PyStr) (cache : Cache)
    (h : lookupOD (some (keyString p 100 0)) cache = none) :
    applyOp (fun s => s) envDiskHit cache (.thumb p 100) =
      insertOD (some (keyString p 100 0)) ⟨1, 1⟩ cache := by
  show (match get_or_make_thumbnail (fun s => s) envDiskHit cache p 100 with
    | .ok r => r.cache
    | .error _ => cache) = _
  unfold get_or_make_thumbnail
  have hck : uniq_file_id (fun s => s) envDiskHit p 100 = some (keyString p 100 0) := rfl
  rw [hck]
  simp only [h]
  rfl

/-- Fresh thumbnail requests served from disk grow the memory cache by one
entry each, and leave unrelated keys untouched. -/
theorem runOps_thumbs (paths : List PyStr) : ∀ (cache : Cache), paths.Nodup →
    (∀ p ∈ paths, lookupOD (some (keyString p 100 0)) cache = none) →
    (runOps (fun s => s) envDiskHit cache (paths.map (fun p => .thumb p 100))).length
        = cache.length + paths.length ∧
    (∀ k', (∀ p ∈ paths, k' ≠ some (keyString p 100 0)) →
      lookupOD k' (runOps (fun s => s) envDiskHit cache (paths.map (fun p => .thumb p 100)))
        = lookupOD k' cache) := by
  induction paths with
  | nil => intro cache _ _; exact ⟨rfl, fun _ _ => rfl⟩
  | cons p ps ih =>
    intro cache hnd hfresh
    have hstep := applyOp_thumb_diskHit p cache (hfresh p (List.mem_cons_self p ps))
    have hne : ∀ q ∈ ps, (some (keyString q 100 0) : CKey) ≠ some (keyString p 100 0) := by
      intro q hq hEq
      have hqp := keyString_injective_parts (Option.some_injective _ hEq)
      exact (List.nodup_cons.mp hnd).1 (hqp.1 ▸ hq)
    have hfresh' : ∀ q ∈ ps,
        lookupOD (some (keyString q 100 0)) (insertOD (some (keyString p 100 0)) ⟨1, 1⟩ cache)
          = none := by
      intro q hq
      rw [lookupOD_insertOD_of_ne _ _ _ _ (hne q hq)]
      exact hfresh q (List.mem_cons_of_mem _ hq)
    have hrec := ih (insertOD (some (keyString p 100 0)) ⟨1, 1⟩ cache)
      (List.nodup_cons.mp hnd).2 hfresh'
    constructor
    · show (runOps (fun s => s) envDiskHit
          (applyOp (fun s => s) envDiskHit cache (.thumb p 100))
          (ps.map (fun q => .thumb q 100))).length = cache.length + (p :: ps).length
      rw [hstep, hrec.1,
        length_insertOD_of_not_mem _ _ _ (hfresh p (List.mem_cons_self p ps))]
      simp only [List.length_cons]
      omega
    · intro k' hk'
      show lookupOD k' (runOps (fun s => s) envDiskHit
          (applyOp (fun s => s) envDiskHit cache (.thumb p 100))
          (ps.map (fun q => .thumb q 100))) = lookupOD k' cache
      rw [hstep, hrec.2 k' (fun q hq => hk' q (List.mem_cons_of_mem _ hq)),
        lookupOD_insertOD_of_ne _ _ _ _ (hk' p (List.mem_cons_self p ps))]

/-- A full-size miss against a cache already holding more than 2000 entries:
the single eviction cannot restore the bound, the code's own
`assert len(PIL_CACHE) == 2000` fails, and the swallowed AssertionError makes
the call return `None` even though the image opened fine. -/
theorem get_full_size_fresh_overflow (digest : PyStr → PyStr) (env : Env) (cache : Cache)
    (p : PyStr) (k : PyStr) (img : Img)
    (hck : uniq_file_id digest env p (-1) = some k)
    (hmem : lookupOD (some k) cache = none)
    (hopen : env.openImage p = some img)
    (hbig : 2000 < cache.length) :
    (get_full_size_image digest env cache p).1 = none := by
  unfold get_full_size_image
  rw [hck]
  have hins := length_insertOD_of_not_mem (some k) img cache hmem
  simp only [hmem, hopen]
  rw [if_pos (by omega)]
  rw [if_neg (by rw [List.length_tail]; omega)]

/-- C1 fails on the code: after 2001 distinct thumbnail requests the shared
`PIL_CACHE` holds 2001 > 2000 entries, because `get_or_make_thumbnail`
inserts without evicting; a subsequent full-size request then evicts only
one entry, its own `assert len(PIL_CACHE) == 2000` fails, and the swallowed
AssertionError makes `get_full_size_image` return `None` for a file that
opened successfully. -/
theorem pil_cache_exceeds_bound :
    2000 < (runOps (fun s => s) envDiskHit []
        (overfillPaths.map (fun p => .thumb p 100))).length ∧
    (get_full_size_image (fun s => s) envDiskHit
        (runOps (fun s => s) envDiskHit [] (overfillPaths.map (fun p => .thumb p 100)))
        ['a']).1 = none ∧
    envDiskHit.openImage ['a'] = some ⟨1, 1⟩ := by
  have hnd : overfillPaths.Nodup :=
    (List.nodup_range 2001).map natDigits_injective
  have hrun := runOps_thumbs overfillPaths [] hnd (fun p _ => rfl)
  have hlen : (runOps (fun s => s) envDiskHit []
      (overfillPaths.map (fun p => .thumb p 100))).length = 2001 := by
    rw [hrun.1]
    simp [overfillPaths]
  refine ⟨by omega, ?_, rfl⟩
  have hkey : ∀ p ∈ overfillPaths,
      (some (keyString ['a'] (-1) 0) : CKey) ≠ some (keyString p 100 0) := by
    intro p _ hEq
    have := keyString_injective_parts (Option.some_injective _ hEq)
    exact absurd this.2.1 (by decide)
  have hlook : lookupOD (some (keyString ['a'] (-1) 0))
      (runOps (fun s => s) envDiskHit [] (overfillPaths.map (fun p => .thumb p 100)))
        = none := by
    rw [hrun.2 _ hkey]
    rfl
  exact get_full_size_fresh_overflow (fun s => s) envDiskHit _ ['a']
    (keyString ['a'] (-1) 0) ⟨1, 1⟩ rfl hlook rfl (by omega)

/-- Witness for C7: the spec's concrete examples, a 500×300 image and a
300×300 image at target size 100. -/
theorem resize_thumbnail_dims_witness :
    (∃ w' h', resize_image ⟨500, 300⟩ 100 100 = some ⟨w', h'⟩ ∧
      max w' h' = (100 : Int).toNat ∧ 1 ≤ min w' h') ∧
    resize_image ⟨500, 300⟩ 100 100 = some ⟨100, 60⟩ ∧
    resize_image ⟨300, 300⟩ 100 100 = some ⟨100, 100⟩ := by
  refine ⟨resize_thumbnail_dims 500 300 100 (by decide) (by decide) (by decide), ?_, ?_⟩
  · norm_num [resize_image]
    omega
  · norm_num [resize_image]
    omega

/-- C3: while the gate is closed the worker makes no progress at all in the
scanning phase (state and queue untouched, so it is still positioned at the
same file), the idle loop never pushes anything, and after `resume()` the
next step processes exactly the file it was stopped at, shrinking the
pending list by that one file. -/
theorem gate_closed_blocks_and_resume_continues (digest : PyStr → PyStr) (env : Env)
    (s : SysState) (oldS : Int) (oldD : PyStr) (p : PyStr) (rest : List PyStr)
    (r : ThumbResult) :
    (s.phase = .scanning oldS oldD (p :: rest) → s.gate = false → s.keepRunning = true →
      workerStep digest env s = (s, [])) ∧
    (∀ oS oD, s.phase = .idle oS oD → (workerStep digest env s).2 = []) ∧
    (s.phase = .scanning oldS oldD (p :: rest) → s.gate = true → s.keepRunning = true →
      oldS = s.currentSize → oldD = s.currentDir →
      get_or_make_thumbnail digest env s.cache p oldS = .ok r →
      workerStep digest env s =
        ({ s with cache := r.cache, phase := .scanning oldS oldD rest }, [p])) := by
  refine ⟨?_, ?_, ?_⟩
  · intro hph hg hk
    simp only [workerStep, hph, hg, hk, if_true, Bool.false_eq_true, if_false]
  · intro oS oD hph
    simp only [workerStep, hph]
    split <;> rfl
  · intro hph hg hk hs hd hwarm
    simp only [workerStep, hph, hg, hk, if_true]
    rw [if_pos ⟨hs, hd⟩, hwarm]

/-- Witness for C3: a paused worker is frozen at file "a"; after resume the
very next step warms and pushes exactly file "a". -/
theorem gate_closed_blocks_and_resume_continues_witness :
    workerStep (fun s => s) envDiskHit pausedScan = (pausedScan, []) ∧
    workerStep (fun s => s) envDiskHit resumedScan =
      ({ resumedScan with cache := [(some kA, ⟨1, 1⟩)], phase := Phase.scanning 100 ['d'] [] },
        [['a']]) :=
  ⟨(gate_closed_blocks_and_resume_continues (fun s => s) envDiskHit pausedScan
      100 ['d'] ['a'] [] ⟨some ⟨1, 1⟩, [(some kA, ⟨1, 1⟩)], []⟩).1 rfl rfl rfl,
   (gate_closed_blocks_and_resume_continues (fun s => s) envDiskHit resumedScan
      100 ['d'] ['a'] [] ⟨some ⟨1, 1⟩, [(some kA, ⟨1, 1⟩)], []⟩).2.2 rfl rfl rfl rfl rfl rfl⟩

/-- C4: a worker that observes a changed target (size or directory) warms
nothing further from the stale list and breaks to the idle loop unchanged
otherwise; the idle loop with a stale target returns to the top of the
scan loop; the top of the scan loop captures the current target and a
freshly recomputed relevant-file list; and any path pushed during a step is
the head of the pending list of a scanning phase whose captured target
still equals the current one. -/
theorem target_change_restarts_scan (digest : PyStr → PyStr) (env : Env) (s : SysState)
    (oldS : Int) (oldD : PyStr) (p : PyStr) (rest : List PyStr) :
    (s.phase = .scanning oldS oldD (p :: rest) → s.gate = true → s.keepRunning = true →
      ¬(oldS = s.currentSize ∧ oldD = s.currentDir) →
      workerStep digest env s = ({ s with phase := .idle oldS oldD }, [])) ∧
    (s.phase = .idle oldS oldD → ¬(oldS = s.currentSize ∧ oldD = s.currentDir) →
      workerStep digest env s = ({ s with phase := .startScan }, [])) ∧
    (s.phase = .startScan → s.keepRunning = true →
      workerStep digest env s =
        ({ s with phase := Phase.scanning s.currentSize s.currentDir (env.relevantFiles s.currentDir) }, [])) ∧
    (∀ q, q ∈ (workerStep digest env s).2 →
      ∃ pend, s.phase = .scanning s.currentSize s.currentDir (q :: pend)) := by
  refine ⟨?_, ?_, ?_, ?_⟩
  · intro hph hg hk hmis
    simp only [workerStep, hph, hg, hk, if_true]
    rw [if_neg hmis]
  · intro hph hmis
    simp only [workerStep, hph]
    rw [if_neg (fun hc => hmis hc.2)]
  · intro hph hk
    simp only [workerStep, hph, hk, if_true]
  · intro q hq
    rcases hph : s.phase with _ | ⟨oS, oD, pending⟩ | ⟨oS, oD⟩ | _ | _
    · simp only [workerStep, hph] at hq
      split at hq <;> simp at hq
    · cases pending with
      | nil => simp [workerStep, hph] at hq
      | cons p0 rest0 =>
        simp only [workerStep, hph] at hq
        split at hq
        · split at hq
          · split at hq
            · rename_i hcond
              split at hq
              · simp only [List.mem_singleton] at hq
                subst hq
                exact ⟨rest0, by rw [hcond.1, hcond.2]⟩
              · simp at hq
            · simp at hq
          · simp at hq
        · simp at hq
    · simp only [workerStep, hph] at hq
      split at hq <;> simp at hq
    · simp [workerStep, hph] at hq
    · simp [workerStep, hph] at hq

/-- Witness for C4: the worker whose directory changed from "d" to "e"
breaks out without warming "a", cycles through idle back to the top, and
recaptures the new target with a fresh (here empty) relevant list. -/
theorem target_change_restarts_scan_witness :
    workerStep (fun s => s) envDiskHit staleScan =
      ({ staleScan with phase := .idle 100 ['d'] }, []) ∧
    workerStep (fun s => s) envDiskHit { staleScan with phase := .idle 100 ['d'] } =
      ({ staleScan with phase := .startScan }, []) ∧
    workerStep (fun s => s) envDiskHit { staleScan with phase := .startScan } =
      ({ staleScan with phase := .scanning 100 ['e'] [] }, []) :=
  ⟨(target_change_restarts_scan (fun s => s) envDiskHit staleScan
      100 ['d'] ['a'] []).1 rfl rfl rfl (by decide),
   (target_change_restarts_scan (fun s => s) envDiskHit
      { staleScan with phase := .idle 100 ['d'] } 100 ['d'] ['a'] []).2.1 rfl (by decide),
   (target_change_restarts_scan (fun s => s) envDiskHit
      { staleScan with phase := .startScan } 100 ['d'] ['a'] []).2.2.1 rfl rfl⟩

/-- Counterexample to C5: the cache-warming call for file "a" fails (the
original cannot be opened, `get_or_make_thumbnail` returns `None` and caches
nothing), yet the worker still pushes "a" onto the handoff queue. -/
theorem failed_warm_still_pushed :
    workerStep (fun s => s) envOpenFail activeScan =
      ({ activeScan with phase := .scanning 100 ['d'] [] }, [['a']]) ∧
    get_or_make_thumbnail (fun s => s) envOpenFail [] ['a'] 100 = .ok ⟨none, [], []⟩ :=
  ⟨rfl, rfl⟩

/-- C5 as amended: whenever the worker processes a file (gate open, target
unchanged, the warming call returning without an uncaught exception), it
pushes the path onto the handoff queue whether or not warming produced a
thumbnail, and the scan proceeds past that file. -/
theorem queue_push_unconditional (digest : PyStr → PyStr) (env : Env) (s : SysState)
    (oldS : Int) (oldD : PyStr) (p : PyStr) (rest : List PyStr) (r : ThumbResult)
    (hph : s.phase = .scanning oldS oldD (p :: rest))
    (hg : s.gate = true) (hk : s.keepRunning = true)
    (hs : oldS = s.currentSize) (hd : oldD = s.currentDir)
    (hwarm : get_or_make_thumbnail digest env s.cache p oldS = .ok r) :
    (workerStep digest env s).2 = [p] ∧
    (workerStep digest env s).1.phase = .scanning oldS oldD rest := by
  simp only [workerStep, hph, hg, hk, if_true]
  rw [if_pos ⟨hs, hd⟩, hwarm]
  exact ⟨rfl, rfl⟩

/-- Witness for C5's amended claim: the failing file "a" is pushed and the
scan moves on. -/
theorem queue_push_unconditional_witness :
    (workerStep (fun s => s) envOpenFail activeScan).2 = [['a']] ∧
    (workerStep (fun s => s) envOpenFail activeScan).1.phase = .scanning 100 ['d'] [] :=
  queue_push_unconditional (fun s => s) envOpenFail activeScan 100 ['d'] ['a'] []
    ⟨none, [], []⟩ rfl rfl rfl rfl rfl rfl

theorem workerStep_noWork (digest : PyStr → PyStr) (env : Env) (s : SysState)
    (h : noWork s) :
    (workerStep digest env s).2 = [] ∧ (workerStep digest env s).1.cache = s.cache ∧
      noWork (workerStep digest env s).1 := by
  have key : ∃ ph, workerStep digest env s = ({ s with phase := ph }, []) := by
    rcases hph : s.phase with _ | ⟨oS, oD, pending⟩ | ⟨oS, oD⟩ | _ | _
    · simp only [workerStep, hph]
      split
      · exact ⟨_, rfl⟩
      · exact ⟨_, rfl⟩
    · cases pending with
      | nil =>
        simp only [workerStep, hph]
        exact ⟨_, rfl⟩
      | cons p0 rest0 =>
        simp only [workerStep, hph]
        rcases h with hg | hk
        · by_cases hkr : s.keepRunning = true
          · rw [if_pos hkr, if_neg (by rw [hg]; exact Bool.false_ne_true)]
            refine ⟨Phase.scanning oS oD (p0 :: rest0), ?_⟩
            rw [← hph]
          · rw [if_neg hkr]
            exact ⟨_, rfl⟩
        · rw [if_neg (by rw [hk]; exact Bool.false_ne_true)]
          exact ⟨_, rfl⟩
    · simp only [workerStep, hph]
      split
      · refine ⟨Phase.idle oS oD, ?_⟩
        rw [← hph]
      · exact ⟨_, rfl⟩
    · simp only [workerStep, hph]
      refine ⟨Phase.stopped, ?_⟩
      rw [← hph]
    · simp only [workerStep, hph]
      refine ⟨Phase.crashed, ?_⟩
      rw [← hph]
  obtain ⟨ph, hstep⟩ := key
  rw [hstep]
  refine ⟨rfl, rfl, ?_⟩
  unfold noWork at h ⊢
  exact h

theorem runActions_noResume (digest : PyStr → PyStr) (env : Env) :
    ∀ (acts : List Action) (s : SysState), noWork s → Action.resume ∉ acts →
      (runActions digest env s acts).2 = [] ∧
        (runActions digest env s acts).1.cache = s.cache := by
  intro acts
  induction acts with
  | nil => intro s _ _; exact ⟨rfl, rfl⟩
  | cons a rest ih =>
    intro s hnw hres
    have hrest : Action.resume ∉ rest := fun hm => hres (List.mem_cons_of_mem _ hm)
    cases a with
    | tick =>
      have hstep := workerStep_noWork digest env s hnw
      have hrec := ih (workerStep digest env s).1 hstep.2.2 hrest
      have e : runActions digest env s (Action.tick :: rest)
          = ((runActions digest env (workerStep digest env s).1 rest).1,
            (workerStep digest env s).2
              ++ (runActions digest env (workerStep digest env s).1 rest).2) := rfl
      rw [e, hstep.1, List.nil_append]
      exact ⟨hrec.1, hrec.2.trans hstep.2.1⟩
    | pause =>
      have hrec := ih { s with gate := false } (Or.inl rfl) hrest
      exact ⟨by rw [show (runActions digest env s (.pause :: rest)).2
          = (runActions digest env { s with gate := false } rest).2 from rfl, hrec.1],
        hrec.2⟩
    | resume => exact absurd (List.mem_cons_self _ _) hres
    | setDir d =>
      have hnw' : noWork { s with currentDir := d } := hnw
      have hrec := ih { s with currentDir := d } hnw' hrest
      exact ⟨by rw [show (runActions digest env s (.setDir d :: rest)).2
          = (runActions digest env { s with currentDir := d } rest).2 from rfl, hrec.1],
        hrec.2⟩
    | setSize n =>
      have hnw' : noWork { s with currentSize := n } := hnw
      have hrec := ih { s with currentSize := n } hnw' hrest
      exact ⟨by rw [show (runActions digest env s (.setSize n :: rest)).2
          = (runActions digest env { s with currentSize := n } rest).2 from rfl, hrec.1],
        hrec.2⟩
    | stop =>
      have hrec := ih { s with keepRunning := false, gate := true } (Or.inr rfl) hrest
      exact ⟨by rw [show (runActions digest env s (.stop :: rest)).2
          = (runActions digest env
              { s with keepRunning := false, gate := true } rest).2 from rfl, hrec.1],
        hrec.2⟩

/-- C10: the gate starts closed — after constructing the worker and calling
`run(dir, size)`, any interleaving of worker steps and UI calls that never
calls `resume()` pushes nothing onto the handoff queue and warms nothing
into the cache. -/
theorem worker_initially_gated (digest : PyStr → PyStr) (env : Env) (dir : PyStr)
    (size : Int) (cache : Cache) (acts : List Action)
    (hres : Action.resume ∉ acts) :
    (runActions digest env (initWorker dir size cache) acts).2 = [] ∧
    (runActions digest env (initWorker dir size cache) acts).1.cache = cache :=
  runActions_noResume digest env acts (initWorker dir size cache) (Or.inl rfl) hres

/-- Witness for C10: three worker steps around a pause and a directory
change, with no resume, produce no queue entries and leave the cache empty. -/
theorem worker_initially_gated_witness :
    Action.resume ∉ [Action.tick, Action.tick, Action.pause,
      Action.setDir ['e'], Action.tick] ∧
    (runActions (fun s => s) envDiskHit (initWorker ['d'] 100 [])
      [Action.tick, Action.tick, Action.pause, Action.setDir ['e'], Action.tick]).2 = [] ∧
    (runActions (fun s => s) envDiskHit (initWorker ['d'] 100 [])
      [Action.tick, Action.tick, Action.pause, Action.setDir ['e'], Action.tick]).1.cache
        = [] :=
  ⟨by decide,
   worker_initially_gated (fun s => s) envDiskHit ['d'] 100 []
     [Action.tick, Action.tick, Action.pause, Action.setDir ['e'], Action.tick]
     (by decide)⟩

end Wallpaper
